import Mathlib

/-!
Verification of the token-matching core of a declarative CLI parser.

The development shallowly embeds the two token-matching engines of the
repository:

* `Clip` embeds `src/clipstick/_tokens.py` (classes `PositionalArg`,
  `OptionalKeyArgs`, `Collection`, `BooleanFlag`, `OptionalBooleanFlag`,
  `Command`, `Subcommand`, and the helper `_is_help_key`), together with
  the schema pre-validation of `src/clipstick/_parse.py` and the entry
  dispatch of `src/clipstick/_clipstick.py`.
* `Smpl` embeds `src/smplcli/tokens.py` (classes `PositionalArg`,
  `OptionalArg`, `HelpArg`, `Subcommand`).

Python mutation of token objects is embedded by returning the updated
object; a raised exception or a `sys.exit` is embedded as a dedicated
constructor of the result type `MRes`.  The unbounded `while` loop in
`Command.match` is embedded with an explicit fuel argument and a
distinguished out-of-fuel result, which is proved unreachable.
-/

/-- Result of a match call.  `ok` embeds a normal `return`;
`indexError` embeds an uncaught `IndexError`; `missingPositional` embeds
`raise _exceptions.MissingPositional(arg, idx, arguments)`;
`ambiguous` embeds `raise ValueError("more than one solution-tree ...")`;
`helpExit` embeds `_help.help(self); sys.exit(0)`;
`fuelOut` is the modelling artifact for the fuel of the `while` loop. -/
inductive MRes (α : Type) where
| ok (a : α)
| indexError
| missingPositional (argKeys : String) (idx : Nat) (arguments : List String)
| ambiguous
| helpExit
| fuelOut
deriving DecidableEq

/-- Sequencing of match steps: any raised exception (or exhausted fuel)
propagates, a normal result feeds the continuation. -/
def MRes.bind {α β : Type} : MRes α → (α → MRes β) → MRes β
| .ok a, f => f a
| .indexError, _ => .indexError
| .missingPositional k i a, _ => .missingPositional k i a
| .ambiguous, _ => .ambiguous
| .helpExit, _ => .helpExit
| .fuelOut, _ => .fuelOut

@[simp] theorem MRes.bind_ok {α β : Type} (a : α) (f : α → MRes β) :
    MRes.bind (.ok a) f = f a := rfl

@[simp] theorem MRes.bind_indexError {α β : Type} (f : α → MRes β) :
    MRes.bind .indexError f = .indexError := rfl

@[simp] theorem MRes.bind_missing {α β : Type} (k : String) (i : Nat)
    (a : List String) (f : α → MRes β) :
    MRes.bind (.missingPositional k i a) f = .missingPositional k i a := rfl

@[simp] theorem MRes.bind_ambiguous {α β : Type} (f : α → MRes β) :
    MRes.bind .ambiguous f = .ambiguous := rfl

@[simp] theorem MRes.bind_helpExit {α β : Type} (f : α → MRes β) :
    MRes.bind .helpExit f = .helpExit := rfl

@[simp] theorem MRes.bind_fuelOut {α β : Type} (f : α → MRes β) :
    MRes.bind .fuelOut f = .fuelOut := rfl

/-- True exactly on the out-of-fuel modelling artifact. -/
def MRes.isFuelOut {α : Type} : MRes α → Bool
| .fuelOut => true
| _ => false

/-- The process exit status requested by the result, when the source code
line producing it carries a `sys.exit`: only the help interception in
`Command.match` exits directly (`sys.exit(0)`). -/
def MRes.exitStatus {α : Type} : MRes α → Option Nat
| .helpExit => some 0
| _ => none

/-- Embedding of Python `field.replace("_", "-")` for the one-character
pattern used throughout `_tokens.py`. -/
def dashify (s : String) : String :=
  String.mk (s.data.map (fun c => if c = '_' then '-' else c))

/-- Embedding of `_to_key`: `f"--{field.replace('_','-')}"`. -/
def toKey (field : String) : String := "--" ++ dashify field

/-- Embedding of `_to_false_key`: `f"--no-{field.replace('_','-')}"`. -/
def toFalseKey (field : String) : String := "--no-" ++ dashify field

/-- Embedding of `_to_short`: `f"-{field}"`. -/
def toShort (field : String) : String := "-" ++ field

/-- Embedding of `_to_false_short`: `f"-no-{field}"`. -/
def toFalseShort (field : String) : String := "-no-" ++ field

/-- Embedding of `"/".join(keys)`. -/
def joinKeys : List String → String
| [] => ""
| [k] => k
| k :: rest => k ++ "/" ++ joinKeys rest

/-- Embedding of Python `s.startswith("-")`. -/
def startsWithDash (s : String) : Bool :=
  match s.data with
  | [] => false
  | c :: _ => c = '-'

/-- Embedding of Python `s.startswith("--")`. -/
def startsWithDashDash (s : String) : Bool :=
  match s.data with
  | c :: d :: _ => c = '-' && d = '-'
  | _ => false

namespace Clip

/-- One token of a clipstick `Command`, together with its mutable
captured state (`self._match`).  One constructor per `_tokens.py` class:

* `positionalArg` — class `PositionalArg` (also `Choice`, which inherits
  its matching behaviour unchanged); `captured` is the write-once value.
* `optionalKeyArgs` — class `OptionalKeyArgs` (also `OptionalChoice`);
  `shorts` are the `Short` annotations of the field.
* `collection` — classes `Collection` (`required = true`) and
  `OptionalCollection` (`required = false`); `captured` accumulates.
* `booleanFlag` — class `BooleanFlag` (required flag).
* `optionalBooleanFlag` — class `OptionalBooleanFlag`;
  `defaultIsFalse` embeds `self.field_info.default is False`. -/
inductive Token where
| positionalArg (field : String) (captured : Option String)
| optionalKeyArgs (field : String) (shorts : List String) (captured : Option String)
| collection (required : Bool) (field : String) (shorts : List String) (captured : List String)
| booleanFlag (field : String) (shorts : List String) (captured : Option Bool)
| optionalBooleanFlag (defaultIsFalse : Bool) (field : String) (shorts : List String) (captured : Option Bool)
deriving DecidableEq

/-- The `required` attribute of each token class. -/
def Token.requiredTok : Token → Bool
| .positionalArg _ _ => true
| .optionalKeyArgs _ _ _ => false
| .collection r _ _ _ => r
| .booleanFlag _ _ _ => true
| .optionalBooleanFlag _ _ _ _ => false

/-- Python truthiness of `self._match` (a nonempty dict, or a non-`None`
dict for `PositionalArg`). -/
def Token.hasCapture : Token → Bool
| .positionalArg _ m => m.isSome
| .optionalKeyArgs _ _ m => m.isSome
| .collection _ _ _ m => !m.isEmpty
| .booleanFlag _ _ m => m.isSome
| .optionalBooleanFlag _ _ _ m => m.isSome

/-- `self._true_keys + self._short_true_keys` of `BooleanFlag`:
the affirmative spellings deciding the captured boolean. -/
def trueSpellings (field : String) (shorts : List String) : List String :=
  [toKey field] ++ shorts.map toShort

/-- The `user_keys` property of each token class.

* `PositionalArg`: `[field.replace("_", "-")]`.
* `OptionalKeyArgs` / `Collection`: `self.keys + self.short_keys`.
* `BooleanFlag`: `self.short_keys + self.keys` where
  `short_keys = _short_false_keys + _short_true_keys` and
  `keys = _true_keys + _false_keys`.
* `OptionalBooleanFlag`: only the spellings contradicting the default:
  `_true_keys + _short_true_keys` when the default is `False`, else
  `_false_keys + _short_false_keys`. -/
def Token.userKeys : Token → List String
| .positionalArg f _ => [dashify f]
| .optionalKeyArgs f shorts _ => [toKey f] ++ shorts.map toShort
| .collection _ f shorts _ => [toKey f] ++ shorts.map toShort
| .booleanFlag f shorts _ =>
    (shorts.map toFalseShort ++ shorts.map toShort) ++ ([toKey f] ++ [toFalseKey f])
| .optionalBooleanFlag dFalse f shorts _ =>
    if dFalse then [toKey f] ++ shorts.map toShort
    else [toFalseKey f] ++ shorts.map toFalseShort

/-- The `match` method of each token class.

* `PositionalArg.match` reads `arguments[idx]` unguarded, refuses a
  dash-initial token and a second capture, else consumes one slot.
* `OptionalKeyArgs.match` guards the spelling lookup at `idx` with
  `try/except IndexError`, but reads the value slot `values[idx + 1]`
  unguarded, consuming two slots.
* `Collection.match` behaves like `OptionalKeyArgs.match` but appends.
* `BooleanFlag.match` (inherited by `OptionalBooleanFlag`) refuses when
  `len(values) <= idx`, else captures the boolean
  `values[idx] in self._true_keys + self._short_true_keys`,
  consuming one slot. -/
def Token.tmatch : Token → Nat → List String → MRes (Bool × Nat × Token)
| t@(.positionalArg f m), idx, args =>
  match args.get? idx with
  | none => .indexError
  | some a =>
    if startsWithDash a then .ok (false, idx, t)
    else if m.isSome then .ok (false, idx, t)
    else .ok (true, idx + 1, .positionalArg f (some a))
| t@(.optionalKeyArgs f shorts _), idx, args =>
  match args.get? idx with
  | none => .ok (false, idx, t)
  | some a =>
    if t.userKeys.contains a then
      match args.get? (idx + 1) with
      | none => .indexError
      | some v => .ok (true, idx + 2, .optionalKeyArgs f shorts (some v))
    else .ok (false, idx, t)
| t@(.collection r f shorts m), idx, args =>
  match args.get? idx with
  | none => .ok (false, idx, t)
  | some a =>
    if t.userKeys.contains a then
      match args.get? (idx + 1) with
      | none => .indexError
      | some v => .ok (true, idx + 2, .collection r f shorts (m ++ [v]))
    else .ok (false, idx, t)
| t@(.booleanFlag f shorts _), idx, args =>
  if args.length ≤ idx then .ok (false, idx, t)
  else
    match args.get? idx with
    | none => .ok (false, idx, t)
    | some a =>
      if t.userKeys.contains a then
        .ok (true, idx + 1, .booleanFlag f shorts (some ((trueSpellings f shorts).contains a)))
      else .ok (false, idx, t)
| t@(.optionalBooleanFlag dF f shorts _), idx, args =>
  if args.length ≤ idx then .ok (false, idx, t)
  else
    match args.get? idx with
    | none => .ok (false, idx, t)
    | some a =>
      if t.userKeys.contains a then
        .ok (true, idx + 1, .optionalBooleanFlag dF f shorts (some ((trueSpellings f shorts).contains a)))
      else .ok (false, idx, t)

/-- Values appearing in the partial dict returned by a token `parse`. -/
inductive Val where
| str (s : String)
| bool (b : Bool)
| strs (l : List String)
deriving DecidableEq

/-- The `parse` method of each token class: the (partial) dict with the
captured key/value pair, to be consumed by the external constructor. -/
def Token.parseTok : Token → List (String × Val)
| .positionalArg f m =>
  match m with
  | some v => [(f, .str v)]
  | none => []
| .optionalKeyArgs f _ m =>
  match m with
  | some v => [(f, .str v)]
  | none => []
| .collection _ f _ m =>
  match m with
  | [] => []
  | l => [(f, .strs l)]
| .booleanFlag f _ m =>
  match m with
  | some b => [(f, .bool b)]
  | none => []
| .optionalBooleanFlag _ f _ m =>
  match m with
  | some b => [(f, .bool b)]
  | none => []

end Clip

namespace Clip

/-- Embedding of `_is_help_key(idx, values)`: `values[idx] == "-h"`,
with the `IndexError` guard returning `False`. -/
def isHelpKey (idx : Nat) (values : List String) : Bool :=
  match values.get? idx with
  | none => false
  | some a => a = "-h"

/-- The `for arg in self.tokens.values()` loop of
`_check_arg_or_optional`: try each token at the current cursor, stop at
the first success; the `for/else` returns no-match with the cursor
rebound by the last attempt. -/
def tryTokens : List Token → Nat → List String → MRes (Bool × Nat × List Token)
| [], idx, _ => .ok (false, idx, [])
| t :: rest, idx, args =>
  (t.tmatch idx args).bind fun (success, idx', t') =>
    if success then .ok (true, idx', t' :: rest)
    else
      (tryTokens rest idx' args).bind fun (s, i, rest') =>
        .ok (s, i, t' :: rest')

/-- Embedding of `_check_arg_or_optional` inside `Command.match`:
an exhausted input (`values_count == _idx`) stops the scan, otherwise
every token of the model is offered the cursor. -/
def checkArgOrOptional (toks : List Token) (idx : Nat) (args : List String) :
    MRes (Bool × Nat × List Token) :=
  if args.length = idx then .ok (false, idx, toks)
  else tryTokens toks idx args

/-- The `while found_match` loop of `Command.match`, with explicit fuel:
repeat `_check_arg_or_optional` until one pass yields no further match. -/
def scanLoop : Nat → List Token → Nat → List String → MRes (Nat × List Token)
| 0, _, _, _ => .fuelOut
| fuel + 1, toks, idx, args =>
  (checkArgOrOptional toks idx args).bind fun (found, idx', toks') =>
    if found then scanLoop fuel toks' idx' args else .ok (idx', toks')

/-- The completeness check of `Command.match`: the first token (in
declaration order) that is required and has no captured value, embedding
`[token for token in self.tokens.values() if token.required and not
token._match][0]`. -/
def firstMissingRequired (toks : List Token) : Option Token :=
  toks.find? (fun t => t.requiredTok && !t.hasCapture)

end Clip

namespace Clip

mutual
/-- A clipstick `Command` node: its ordered `tokens` dict and its
`sub_commands` list. -/
inductive Command where
| mk (tokens : List Token) (subs : Subs)
/-- The `sub_commands` list of a `Command`; each entry carries the
variant's single `user_keys` surface name (derived by `Subcommand` from
the class name) and the variant node itself. -/
inductive Subs where
| nil : Subs
| cons (name : String) (c : Command) (rest : Subs) : Subs
end

/-- Number of entries in a `sub_commands` list. -/
def Subs.len : Subs → Nat
| .nil => 0
| .cons _ _ rest => 1 + rest.len

/-- The `sub_commands` list as a Lean list of (surface name, node). -/
def Subs.toList : Subs → List (String × Command)
| .nil => []
| .cons name c rest => (name, c) :: rest.toList

/-- The `sub_commands` list of a node. -/
def Command.subsOf : Command → Subs
| .mk _ subs => subs

/-- The `tokens` of a node. -/
def Command.tokensOf : Command → List Token
| .mk toks _ => toks

mutual
/-- Embedding of `Command.match(self, idx, arguments)`:

1. help interception (`_is_help_key` then `sys.exit(0)`);
2. the exhaustive `while` scan over the node's tokens (fuel
   `len(arguments) + 1`, proved sufficient below);
3. the completeness check raising `MissingPositional` with the joined
   `user_keys` of the first unmatched required token, the current
   cursor, and the full argument list;
4. with no subcommands, success at the current cursor; otherwise the
   `for sub_command in self.sub_commands` loop (see `Subs.loop`),
   committing `self.sub_commands = [subcommand]` on a unique winner and
   rewinding to `start_idx` when no variant matched. -/
def Command.runMatch : Command → Nat → List String → MRes (Bool × Nat × Command)
| .mk toks subs, idx, args =>
  if isHelpKey idx args then .helpExit
  else
    (scanLoop (args.length + 1) toks idx args).bind fun (idx', toks') =>
      match firstMissingRequired toks' with
      | some t => .missingPositional (joinKeys t.userKeys) idx' args
      | none =>
        match subs with
        | .nil => .ok (true, idx', Command.mk toks' .nil)
        | s =>
          (s.loop idx' args none).bind fun (winner, idxEnd, subs') =>
            match winner with
            | none => .ok (false, idx, Command.mk toks' subs')
            | some (wname, wc) => .ok (true, idxEnd, Command.mk toks' (.cons wname wc .nil))

/-- Embedding of the subcommand loop inside `Command.match`:
`success, idx = sub_command.match(idx, arguments)` rebinds the cursor on
every attempt, a second success raises the `ValueError` ambiguity fault,
and the loop also records the updated variant objects.  Each attempt is
`Subcommand.match`: the surface-name test at the cursor (guarded against
`IndexError`) followed by `super().match(idx + 1, values)`. -/
def Subs.loop : Subs → Nat → List String → Option (String × Command) →
    MRes (Option (String × Command) × Nat × Subs)
| .nil, idx, _, winner => .ok (winner, idx, .nil)
| .cons name c rest, idx, args, winner =>
  (match args.get? idx with
   | none => .ok (false, idx, c)
   | some a => if a = name then c.runMatch (idx + 1) args else .ok (false, idx, c) :
     MRes (Bool × Nat × Command)).bind fun (success, idx', c') =>
    if success then
      match winner with
      | some _ => .ambiguous
      | none =>
        (Subs.loop rest idx' args (some (name, c'))).bind fun (w, i, rest') =>
          .ok (w, i, .cons name c' rest')
    else
      (Subs.loop rest idx' args winner).bind fun (w, i, rest') =>
        .ok (w, i, .cons name c' rest')
end

/-- One attempt of `Subcommand.match(self, idx, values)` in isolation:
the surface-name test at the cursor, then `Command.match` from the slot
after the name. -/
def subMatchAt (name : String) (c : Command) (idx : Nat) (args : List String) :
    MRes (Bool × Nat × Command) :=
  match args.get? idx with
  | none => .ok (false, idx, c)
  | some a => if a = name then c.runMatch (idx + 1) args else .ok (false, idx, c)

end Clip

namespace Smpl

/-- One token of the smplcli engine, with its mutable `indices` slice
(embedded as the pair of slice bounds).  One constructor per
`smplcli/tokens.py` class: `PositionalArg`, `OptionalArg`, `HelpArg`. -/
inductive Tok where
| positionalArg (key : String) (indices : Option (Nat × Nat))
| optionalArg (key : String) (indices : Option (Nat × Nat))
| helpArg (indices : Option (Nat × Nat))
deriving DecidableEq

/-- The `match` method of each smplcli token class.

* `PositionalArg.match` refuses a `--`-initial value (and, via the
  `IndexError` guard, an exhausted input), else records
  `slice(idx, idx + 1)` and consumes one slot.
* `OptionalArg.match` always reports success; on its `--key` spelling it
  records `slice(idx, idx + 2)` and consumes two slots, otherwise it
  passes through without consuming.
* `HelpArg.match` always reports success; on `-h` it records
  `slice(idx, len(values))` and returns `idx + len(values)`. -/
def Tok.tmatch : Tok → Nat → List String → (Bool × Nat × Tok)
| t@(.positionalArg k _), idx, values =>
  match values.get? idx with
  | none => (false, idx, t)
  | some a =>
    if startsWithDashDash a then (false, idx, t)
    else (true, idx + 1, .positionalArg k (some (idx, idx + 1)))
| t@(.optionalArg k _), idx, values =>
  match values.get? idx with
  | none => (true, idx, t)
  | some a =>
    if a = "--" ++ k then (true, idx + 2, .optionalArg k (some (idx, idx + 2)))
    else (true, idx, t)
| t@(.helpArg _), idx, values =>
  match values.get? idx with
  | none => (true, idx, t)
  | some a =>
    if a = "-h" then (true, idx + values.length, .helpArg (some (idx, values.length)))
    else (true, idx, t)

/-- The `for arg in self.args` loop of `Subcommand.match`: one pass in
declaration order, threading the cursor, aborting at the first token
that reports no match. -/
def argsLoop : List Tok → Nat → List String → (Bool × Nat × List Tok)
| [], idx, _ => (true, idx, [])
| t :: rest, idx, values =>
  match t.tmatch idx values with
  | (true, idx', t') =>
    match argsLoop rest idx' values with
    | (s, i, rest') => (s, i, t' :: rest')
  | (false, idx', t') => (false, idx', t' :: rest)

mutual
/-- A smplcli `Subcommand` node: field `key`, surface
`sub_command_name`, its `args` tokens, its `sub_commands`, and the
mutable `indices` slice. -/
inductive SCmd where
| mk (key : String) (name : String) (args : List Tok) (subs : SSubs) (indices : Option (Nat × Nat))
/-- The `sub_commands` list of a smplcli node. -/
inductive SSubs where
| nil : SSubs
| cons (c : SCmd) (rest : SSubs) : SSubs
end

/-- The smplcli `sub_commands` list as a Lean list. -/
def SSubs.toList : SSubs → List SCmd
| .nil => []
| .cons c rest => c :: rest.toList

/-- Rebuild a `sub_commands` list from collected attempt results. -/
def ssubsOfResults : List (Bool × Nat × SCmd) → SSubs
| [] => .nil
| (_, _, c) :: rest => .cons c (ssubsOfResults rest)

/-- The successes filter of `Subcommand.match`:
`[s for s in subcommands if s[0] is True]`. -/
def successesOf (l : List (Bool × Nat × SCmd)) : List (Bool × Nat × SCmd) :=
  l.filter (fun r => r.1)

mutual
/-- Embedding of smplcli `Subcommand.match(self, idx, values)`:
the surface-name test at the entry cursor (rewinding to `start_idx` on
mismatch or exhausted input), recording `slice(idx, idx + 1)`, one pass
over `self.args` (aborting to `start_idx` on a failed token), then the
variants stage: every subcommand is attempted from the same cursor
(`sub_command_start_idx = idx`), more than one success raises the
`ValueError` ambiguity fault, zero successes rewind to `start_idx`, and
a unique success commits `self.sub_commands = [winner]` and returns
`idx + winner_idx` (the code adds the winner's absolute cursor to the
current one). -/
def SCmd.smatch : SCmd → Nat → List String → MRes (Bool × Nat × SCmd)
| .mk key name args subs ind, idx, values =>
  match values.get? idx with
  | none => .ok (false, idx, .mk key name args subs ind)
  | some a =>
    if a = name then
      match argsLoop args (idx + 1) values with
      | (false, _, args') => .ok (false, idx, .mk key name args' subs (some (idx, idx + 1)))
      | (true, idx', args') =>
        match subs with
        | .nil => .ok (true, idx', .mk key name args' .nil (some (idx, idx + 1)))
        | s =>
          (s.collect idx' values).bind fun results =>
            if 1 < (successesOf results).length then .ambiguous
            else
              match successesOf results with
              | [] => .ok (false, idx, .mk key name args' (ssubsOfResults results) (some (idx, idx + 1)))
              | w :: _ => .ok (true, idx' + w.2.1, .mk key name args' (.cons w.2.2 .nil) (some (idx, idx + 1)))
    else .ok (false, idx, .mk key name args subs ind)

/-- The variants stage of smplcli `Subcommand.match`: attempt every
subcommand from the same start cursor and collect the triples
`(*result, sub_command)`. -/
def SSubs.collect : SSubs → Nat → List String → MRes (List (Bool × Nat × SCmd))
| .nil, _, _ => .ok []
| .cons c rest, idx, values =>
  (c.smatch idx values).bind fun (s, i, c') =>
    (SSubs.collect rest idx values).bind fun results =>
      .ok ((s, i, c') :: results)
end

end Smpl

namespace Clip

/-- Count-distinct helper embedding `set(shorts)`: the distinct elements
of a list of short names. -/
def distinctStrs : List String → List String
| [] => []
| s :: rest =>
  if (distinctStrs rest).contains s then distinctStrs rest
  else s :: distinctStrs rest

/-- Embedding of `_validate_shorts_in_model`: collect every `Short`
annotation of the model's fields and require them pairwise distinct
(`len(shorts) == len(set(shorts))`). -/
def validateShortsInModel (fieldShorts : List (List String)) : Bool :=
  (fieldShorts.flatten).length = (distinctStrs fieldShorts.flatten).length

mutual
/-- The shape of a CLI model as seen by `validate_model` in `_parse.py`:
per field the list of its `Short` annotations, whether the class is a
pydantic `BaseModel` or a dataclass, and the nested models reachable
through field annotations (what `iter_over_model` recurses into). -/
inductive SModel where
| mk (fieldShorts : List (List String)) (isBaseModel : Bool) (isDataclass : Bool) (subs : SModels)
/-- Nested models of an `SModel`. -/
inductive SModels where
| nil : SModels
| cons (m : SModel) (rest : SModels) : SModels
end

mutual
/-- Embedding of `_validate_shorts`: `_validate_shorts_in_model` on every
model yielded by `iter_over_model` (the model itself and, recursively,
every nested model). -/
def SModel.validateShorts : SModel → Bool
| .mk fieldShorts _ _ subs => validateShortsInModel fieldShorts && subs.validateShorts
/-- Shorts validation over a list of nested models. -/
def SModels.validateShorts : SModels → Bool
| .nil => true
| .cons m rest => m.validateShorts && rest.validateShorts
end

/-- Whether the root model is a pydantic `BaseModel`. -/
def SModel.isBase : SModel → Bool
| .mk _ b _ _ => b

/-- Whether the root model is a dataclass. -/
def SModel.isDc : SModel → Bool
| .mk _ _ d _ => d

/-- Outcome of the entry dispatch of `parse` in `_clipstick.py` before
any argument token is examined. -/
inductive ParseOutcome where
| exitWith (code : Nat)
| proceed
deriving DecidableEq

/-- Embedding of the prelude of `parse(model, args)` in `_clipstick.py`:

1. `validate_model(model)` — a `ClipStickError` (duplicate shorts) is
   caught and the process exits with status `1`;
2. the model-kind dispatch — a model that is neither a pydantic
   `BaseModel` nor a dataclass exits with status `3`;
3. otherwise control proceeds to the argument parser.

The argument list is a parameter only to state that this prelude never
examines it. -/
def parsePrelude (model : SModel) (_args : List String) : ParseOutcome :=
  if !model.validateShorts then .exitWith 1
  else if model.isBase then .proceed
  else if model.isDc then .proceed
  else .exitWith 3

end Clip

namespace Clip

/-- A successful index read bounds the cursor by the input length. -/
theorem get?_some_lt {α : Type} (l : List α) (i : Nat) (a : α)
    (h : l.get? i = some a) : i < l.length := by
  rcases List.get?_eq_some.mp h with ⟨hlt, _⟩
  exact hlt

/-- Every successful token match consumes at least one input slot and
happens strictly inside the input. -/
theorem tmatch_true_advance (t : Token) (idx : Nat) (args : List String)
    (idx' : Nat) (t' : Token) (h : t.tmatch idx args = .ok (true, idx', t')) :
    idx < idx' ∧ idx < args.length := by
  cases t <;> simp only [Token.tmatch] at h
  case positionalArg f m =>
    split at h
    · exact MRes.noConfusion h
    · rename_i a heq
      have hlt := get?_some_lt args idx a heq
      split at h
      · simp at h
      · split at h
        · simp at h
        · simp only [MRes.ok.injEq, Prod.mk.injEq] at h
          omega
  case optionalKeyArgs f shorts m =>
    split at h
    · simp at h
    · rename_i a heq
      have hlt := get?_some_lt args idx a heq
      split at h
      · split at h
        · exact MRes.noConfusion h
        · simp only [MRes.ok.injEq, Prod.mk.injEq] at h
          omega
      · simp at h
  case collection r f shorts m =>
    split at h
    · simp at h
    · rename_i a heq
      have hlt := get?_some_lt args idx a heq
      split at h
      · split at h
        · exact MRes.noConfusion h
        · simp only [MRes.ok.injEq, Prod.mk.injEq] at h
          omega
      · simp at h
  case booleanFlag f shorts m =>
    split at h
    · simp at h
    · rename_i hlen
      split at h
      · simp at h
      · split at h
        · simp only [MRes.ok.injEq, Prod.mk.injEq] at h
          omega
        · simp at h
  case optionalBooleanFlag dF f shorts m =>
    split at h
    · simp at h
    · rename_i hlen
      split at h
      · simp at h
      · split at h
        · simp only [MRes.ok.injEq, Prod.mk.injEq] at h
          omega
        · simp at h

end Clip

namespace Clip

/-- A failed token match leaves both the cursor and the token state
unchanged (every `return False` path returns the entry cursor and
mutates nothing). -/
theorem tmatch_false_eq (t : Token) (idx : Nat) (args : List String)
    (i : Nat) (t' : Token) (h : t.tmatch idx args = .ok (false, i, t')) :
    i = idx ∧ t' = t := by
  cases t <;> simp only [Token.tmatch] at h
  case positionalArg f m =>
    split at h
    · exact MRes.noConfusion h
    · split at h
      · simp only [MRes.ok.injEq, Prod.mk.injEq] at h
        exact ⟨h.2.1.symm, h.2.2.symm⟩
      · split at h
        · simp only [MRes.ok.injEq, Prod.mk.injEq] at h
          exact ⟨h.2.1.symm, h.2.2.symm⟩
        · simp at h
  case optionalKeyArgs f shorts m =>
    split at h
    · simp only [MRes.ok.injEq, Prod.mk.injEq] at h
      exact ⟨h.2.1.symm, h.2.2.symm⟩
    · split at h
      · split at h
        · exact MRes.noConfusion h
        · simp at h
      · simp only [MRes.ok.injEq, Prod.mk.injEq] at h
        exact ⟨h.2.1.symm, h.2.2.symm⟩
  case collection r f shorts m =>
    split at h
    · simp only [MRes.ok.injEq, Prod.mk.injEq] at h
      exact ⟨h.2.1.symm, h.2.2.symm⟩
    · split at h
      · split at h
        · exact MRes.noConfusion h
        · simp at h
      · simp only [MRes.ok.injEq, Prod.mk.injEq] at h
        exact ⟨h.2.1.symm, h.2.2.symm⟩
  case booleanFlag f shorts m =>
    split at h
    · simp only [MRes.ok.injEq, Prod.mk.injEq] at h
      exact ⟨h.2.1.symm, h.2.2.symm⟩
    · split at h
      · simp only [MRes.ok.injEq, Prod.mk.injEq] at h
        exact ⟨h.2.1.symm, h.2.2.symm⟩
      · split at h
        · simp at h
        · simp only [MRes.ok.injEq, Prod.mk.injEq] at h
          exact ⟨h.2.1.symm, h.2.2.symm⟩
  case optionalBooleanFlag dF f shorts m =>
    split at h
    · simp only [MRes.ok.injEq, Prod.mk.injEq] at h
      exact ⟨h.2.1.symm, h.2.2.symm⟩
    · split at h
      · simp only [MRes.ok.injEq, Prod.mk.injEq] at h
        exact ⟨h.2.1.symm, h.2.2.symm⟩
      · split at h
        · simp at h
        · simp only [MRes.ok.injEq, Prod.mk.injEq] at h
          exact ⟨h.2.1.symm, h.2.2.symm⟩

/-- A successful pass over the token list strictly advances the cursor
and starts strictly inside the input. -/
theorem tryTokens_true_advance (toks : List Token) (args : List String) :
    ∀ (idx i : Nat) (toks' : List Token),
      tryTokens toks idx args = .ok (true, i, toks') →
      idx < i ∧ idx < args.length := by
  induction toks with
  | nil =>
    intro idx i toks' h
    simp [tryTokens] at h
  | cons t rest ih =>
    intro idx i toks' h
    simp only [tryTokens] at h
    cases hm : t.tmatch idx args with
    | ok triple =>
      obtain ⟨s, i₁, t₁⟩ := triple
      rw [hm] at h
      simp only [MRes.bind_ok] at h
      cases s with
      | true =>
        simp only [if_true] at h
        simp only [MRes.ok.injEq, Prod.mk.injEq] at h
        obtain ⟨hadv, hlt⟩ := tmatch_true_advance t idx args i₁ t₁ hm
        omega
      | false =>
        simp only [Bool.false_eq_true, if_false] at h
        obtain ⟨hi, ht⟩ := tmatch_false_eq t idx args i₁ t₁ hm
        rw [hi] at h
        cases hr : tryTokens rest idx args with
        | ok triple₂ =>
          obtain ⟨s₂, i₂, rest₂⟩ := triple₂
          rw [hr] at h
          simp only [MRes.bind_ok, MRes.ok.injEq, Prod.mk.injEq] at h
          obtain ⟨hs₂, hi₂, _⟩ := h
          have hrec := ih idx i₂ rest₂ (by rw [hr, hs₂])
          omega
        | indexError => rw [hr] at h; exact MRes.noConfusion h
        | missingPositional k j a => rw [hr] at h; exact MRes.noConfusion h
        | ambiguous => rw [hr] at h; exact MRes.noConfusion h
        | helpExit => rw [hr] at h; exact MRes.noConfusion h
        | fuelOut => rw [hr] at h; exact MRes.noConfusion h
    | indexError => rw [hm] at h; exact MRes.noConfusion h
    | missingPositional k j a => rw [hm] at h; exact MRes.noConfusion h
    | ambiguous => rw [hm] at h; exact MRes.noConfusion h
    | helpExit => rw [hm] at h; exact MRes.noConfusion h
    | fuelOut => rw [hm] at h; exact MRes.noConfusion h

end Clip

namespace Clip

/-- Fuel-out never arises from a bind whose head cannot fuel-out and
whose continuation cannot fuel-out. -/
theorem bind_isFuelOut_false {α β : Type} (r : MRes α) (f : α → MRes β)
    (hr : r.isFuelOut = false) (hf : ∀ a, (f a).isFuelOut = false) :
    (r.bind f).isFuelOut = false := by
  cases r <;> simp_all [MRes.bind, MRes.isFuelOut]

/-- A single pass never produces the fuel-out artifact. -/
theorem tryTokens_no_fuelOut (toks : List Token) (args : List String) :
    ∀ idx, (tryTokens toks idx args).isFuelOut = false := by
  induction toks with
  | nil => intro idx; simp [tryTokens, MRes.isFuelOut]
  | cons t rest ih =>
    intro idx
    simp only [tryTokens]
    apply bind_isFuelOut_false
    · cases t <;> simp only [Token.tmatch] <;>
        repeat' first
        | split
        | rfl
    · rintro ⟨s, i₁, t₁⟩
      cases s with
      | true => simp [MRes.isFuelOut]
      | false =>
        simp only [Bool.false_eq_true, if_false]
        apply bind_isFuelOut_false
        · exact ih i₁
        · rintro ⟨s₂, i₂, rest₂⟩
          simp [MRes.isFuelOut]

/-- With fuel exceeding the remaining input length, the exhaustive scan
loop of `Command.match` always completes: every successful pass strictly
advances the cursor, so the passes are bounded by the input length. -/
theorem scanLoop_no_fuelOut (args : List String) :
    ∀ (fuel : Nat) (toks : List Token) (idx : Nat),
      args.length - idx < fuel →
      (scanLoop fuel toks idx args).isFuelOut = false := by
  intro fuel
  induction fuel with
  | zero => intro toks idx hf; omega
  | succ fuel ih =>
    intro toks idx hf
    simp only [scanLoop]
    cases hc : checkArgOrOptional toks idx args with
    | ok triple =>
      obtain ⟨found, idx', toks'⟩ := triple
      cases found with
      | false => simp [MRes.bind, MRes.isFuelOut]
      | true =>
        simp only [MRes.bind_ok, if_true]
        simp only [checkArgOrOptional] at hc
        split at hc
        · simp at hc
        · obtain ⟨hadv, hlt⟩ := tryTokens_true_advance toks args idx idx' toks' hc
          exact ih toks' idx' (by omega)
    | indexError => simp [MRes.bind, MRes.isFuelOut]
    | missingPositional k j a => simp [MRes.bind, MRes.isFuelOut]
    | ambiguous => simp [MRes.bind, MRes.isFuelOut]
    | helpExit => simp [MRes.bind, MRes.isFuelOut]
    | fuelOut =>
      exfalso
      have := tryTokens_no_fuelOut toks args idx
      simp only [checkArgOrOptional] at hc
      split at hc
      · exact MRes.noConfusion hc
      · rw [hc] at this
        simp [MRes.isFuelOut] at this

end Clip

namespace Clip

mutual
/-- Size of a command tree, for induction. -/
def Command.csize : Command → Nat
| .mk _ subs => 1 + subs.ssize
/-- Size of a subcommand list, for induction. -/
def Subs.ssize : Subs → Nat
| .nil => 0
| .cons _ c rest => 1 + c.csize + rest.ssize
end

/-- Unfolding equation for `Command.runMatch` on a constructor. -/
theorem runMatch_unfold (toks : List Token) (subs : Subs) (idx : Nat) (args : List String) :
    Command.runMatch (.mk toks subs) idx args =
      (if isHelpKey idx args then .helpExit
       else
         (scanLoop (args.length + 1) toks idx args).bind fun (idx', toks') =>
           match firstMissingRequired toks' with
           | some t => .missingPositional (joinKeys t.userKeys) idx' args
           | none =>
             match subs with
             | .nil => .ok (true, idx', Command.mk toks' .nil)
             | s =>
               (s.loop idx' args none).bind fun (winner, idxEnd, subs') =>
                 match winner with
                 | none => .ok (false, idx, Command.mk toks' subs')
                 | some (wname, wc) => .ok (true, idxEnd, Command.mk toks' (.cons wname wc .nil))) := by
  rw [Command.runMatch]

/-- Unfolding equation for `Subs.loop` on a cons cell. -/
theorem loop_unfold (name : String) (c : Command) (rest : Subs) (idx : Nat)
    (args : List String) (winner : Option (String × Command)) :
    Subs.loop (.cons name c rest) idx args winner =
      (match args.get? idx with
       | none => .ok (false, idx, c)
       | some a => if a = name then c.runMatch (idx + 1) args else .ok (false, idx, c) :
         MRes (Bool × Nat × Command)).bind fun (success, idx', c') =>
        if success then
          match winner with
          | some _ => .ambiguous
          | none =>
            (Subs.loop rest idx' args (some (name, c'))).bind fun (w, i, rest') =>
              .ok (w, i, .cons name c' rest')
        else
          (Subs.loop rest idx' args winner).bind fun (w, i, rest') =>
            .ok (w, i, .cons name c' rest') := by
  rw [Subs.loop]

/-- Joint statement for the size induction: neither `Command.match` nor
its subcommand loop can exhaust the input-length fuel of the scan. -/
theorem no_fuelOut_all (n : Nat) :
    (∀ (c : Command) (idx : Nat) (args : List String), c.csize ≤ n →
      (c.runMatch idx args).isFuelOut = false) ∧
    (∀ (s : Subs) (idx : Nat) (args : List String) (w : Option (String × Command)),
      s.ssize ≤ n → (Subs.loop s idx args w).isFuelOut = false) := by
  induction n using Nat.strong_induction_on with
  | _ n ih =>
    constructor
    · intro c idx args hc
      cases c with
      | mk toks subs =>
        simp only [Command.csize] at hc
        rw [runMatch_unfold]
        split
        · rfl
        · apply bind_isFuelOut_false
          · exact scanLoop_no_fuelOut args (args.length + 1) toks idx (by omega)
          · rintro ⟨idx', toks'⟩
            dsimp only
            split
            · rfl
            · split
              · rfl
              · apply bind_isFuelOut_false
                · exact (ih subs.ssize (by omega)).2 subs idx' args none (Nat.le_refl _)
                · rintro ⟨winner, idxEnd, subs'⟩
                  dsimp only
                  cases winner with
                  | none => rfl
                  | some w => obtain ⟨wname, wc⟩ := w; rfl
    · intro s idx args w hs
      cases s with
      | nil => rfl
      | cons name c rest =>
        simp only [Subs.ssize] at hs
        rw [loop_unfold]
        apply bind_isFuelOut_false
        · split
          · rfl
          · split
            · exact (ih c.csize (by omega)).1 c (idx + 1) args (Nat.le_refl _)
            · rfl
        · rintro ⟨success, idx', c'⟩
          dsimp only
          cases success with
          | true =>
            simp only [if_true]
            cases w with
            | some x => rfl
            | none =>
              apply bind_isFuelOut_false
              · exact (ih rest.ssize (by omega)).2 rest idx' args (some (name, c')) (Nat.le_refl _)
              · rintro ⟨w2, i2, rest2⟩
                dsimp only
                rfl
          | false =>
            simp only [Bool.false_eq_true, if_false]
            apply bind_isFuelOut_false
            · exact (ih rest.ssize (by omega)).2 rest idx' args w (Nat.le_refl _)
            · rintro ⟨w2, i2, rest2⟩
              dsimp only
              rfl

/-- `Command.match` never runs out of the input-length fuel of its
`while` scan. -/
theorem runMatch_no_fuelOut (c : Command) (idx : Nat) (args : List String) :
    (c.runMatch idx args).isFuelOut = false :=
  (no_fuelOut_all c.csize).1 c idx args (Nat.le_refl _)

end Clip

namespace Clip

end Clip

namespace Clip

end Clip

namespace Clip

end Clip

namespace Clip

end Clip

namespace Clip

/-- On any successful `Command.match`, the node ends with at most one
subcommand variant in its `sub_commands` list: either there was no
subcommand group, or exactly the winning variant was committed by
`self.sub_commands = [subcommand]`. -/
theorem runMatch_commits_at_most_one (toks : List Token) (subs : Subs)
    (idx i : Nat) (args : List String) (c' : Command)
    (h : Command.runMatch (.mk toks subs) idx args = .ok (true, i, c')) :
    c'.subsOf.len ≤ 1 := by
  rw [runMatch_unfold] at h
  split at h
  · exact MRes.noConfusion h
  · cases hs : scanLoop (args.length + 1) toks idx args with
    | ok p =>
      obtain ⟨idx₀, toks₀⟩ := p
      rw [hs] at h
      simp only [MRes.bind_ok] at h
      cases hfm : firstMissingRequired toks₀ with
      | some t =>
        rw [hfm] at h
        exact MRes.noConfusion h
      | none =>
        rw [hfm] at h
        cases subs with
        | nil =>
          dsimp only at h
          simp only [MRes.ok.injEq, Prod.mk.injEq] at h
          rw [← h.2.2]
          simp [Command.subsOf, Subs.len]
        | cons name c rest =>
          dsimp only at h
          cases hl : Subs.loop (.cons name c rest) idx₀ args none with
          | ok q =>
            obtain ⟨winner, idxEnd, subs'⟩ := q
            rw [hl] at h
            simp only [MRes.bind_ok] at h
            cases winner with
            | none => simp at h
            | some wp =>
              simp only [MRes.ok.injEq, Prod.mk.injEq] at h
              rw [← h.2.2]
              simp [Command.subsOf, Subs.len]
          | indexError => rw [hl] at h; exact MRes.noConfusion h
          | missingPositional k j a2 => rw [hl] at h; exact MRes.noConfusion h
          | ambiguous => rw [hl] at h; exact MRes.noConfusion h
          | helpExit => rw [hl] at h; exact MRes.noConfusion h
          | fuelOut => rw [hl] at h; exact MRes.noConfusion h
    | indexError => rw [hs] at h; exact MRes.noConfusion h
    | missingPositional k j a2 => rw [hs] at h; exact MRes.noConfusion h
    | ambiguous => rw [hs] at h; exact MRes.noConfusion h
    | helpExit => rw [hs] at h; exact MRes.noConfusion h
    | fuelOut => rw [hs] at h; exact MRes.noConfusion h

/-- After the exhaustive scan, a missing required token makes
`Command.match` raise `MissingPositional` naming the first such token in
declaration order, carrying the post-scan cursor and the full input —
regardless of the node's subcommand group: the raise happens before any
sibling can be consulted and propagates out of the whole match. -/
theorem missing_required_raises (toks : List Token) (subs : Subs)
    (idx idx' : Nat) (args : List String) (toks' : List Token) (t : Token)
    (h1 : isHelpKey idx args = false)
    (h2 : scanLoop (args.length + 1) toks idx args = .ok (idx', toks'))
    (h3 : firstMissingRequired toks' = some t) :
    Command.runMatch (.mk toks subs) idx args =
      .missingPositional (joinKeys t.userKeys) idx' args := by
  rw [runMatch_unfold, h1]
  simp only [Bool.false_eq_true, if_false, h2, MRes.bind_ok]
  rw [h3]

/-- A `Subcommand.match` attempt whose surface-name test fails returns
the entry cursor and the unchanged variant. -/
theorem subMatchAt_name_mismatch (name : String) (c : Command) (idx : Nat)
    (args : List String) (a : String) (hg : args.get? idx = some a)
    (hne : a ≠ name) :
    subMatchAt name c idx args = .ok (false, idx, c) := by
  simp only [subMatchAt, hg]
  rw [if_neg hne]

end Clip

namespace Smpl

/-- Spine length of a smplcli `sub_commands` list. -/
def SSubs.slen : SSubs → Nat
| .nil => 0
| .cons _ rest => 1 + rest.slen

/-- Bounded-size helper for the variants-stage independence result. -/
theorem collect_independent_bounded (idx : Nat) (vs : List String) :
    ∀ (n : Nat) (subs : SSubs), subs.slen ≤ n →
      ∀ (l : List (Bool × Nat × SCmd)),
        SSubs.collect subs idx vs = .ok l →
        ∀ (j : Nat) (cj : SCmd), (SSubs.toList subs).get? j = some cj →
        ∃ s i c', cj.smatch idx vs = .ok (s, i, c') ∧ l.get? j = some (s, i, c') := by
  intro n
  induction n with
  | zero =>
    intro subs hs l h j cj hj
    cases subs with
    | nil => simp [SSubs.toList] at hj
    | cons c rest => simp [SSubs.slen] at hs
  | succ n ih =>
    intro subs hs l h j cj hj
    cases subs with
    | nil => simp [SSubs.toList] at hj
    | cons c rest =>
      simp only [SSubs.slen] at hs
      rw [SSubs.collect] at h
      cases hm : c.smatch idx vs with
      | ok triple =>
        obtain ⟨s, i, c'⟩ := triple
        rw [hm] at h
        simp only [MRes.bind_ok] at h
        cases hr : SSubs.collect rest idx vs with
        | ok results =>
          rw [hr] at h
          simp only [MRes.bind_ok, MRes.ok.injEq] at h
          cases j with
          | zero =>
            simp only [SSubs.toList, List.get?] at hj
            cases hj
            exact ⟨s, i, c', hm, by rw [← h]; rfl⟩
          | succ j =>
            simp only [SSubs.toList, List.get?] at hj
            obtain ⟨s₂, i₂, c₂, hm₂, hl₂⟩ :=
              ih rest (by omega) results hr j cj hj
            exact ⟨s₂, i₂, c₂, hm₂, by rw [← h]; simpa using hl₂⟩
        | indexError => rw [hr] at h; exact MRes.noConfusion h
        | missingPositional k j2 a2 => rw [hr] at h; exact MRes.noConfusion h
        | ambiguous => rw [hr] at h; exact MRes.noConfusion h
        | helpExit => rw [hr] at h; exact MRes.noConfusion h
        | fuelOut => rw [hr] at h; exact MRes.noConfusion h
      | indexError => rw [hm] at h; exact MRes.noConfusion h
      | missingPositional k j2 a2 => rw [hm] at h; exact MRes.noConfusion h
      | ambiguous => rw [hm] at h; exact MRes.noConfusion h
      | helpExit => rw [hm] at h; exact MRes.noConfusion h
      | fuelOut => rw [hm] at h; exact MRes.noConfusion h

/-- In the smplcli variants stage, every variant is attempted from the
same post-scan cursor, each against its own state: the collected result
at position `j` is exactly variant `j`'s match at that shared cursor,
whatever the other variants did. -/
theorem collect_independent (idx : Nat) (vs : List String) (subs : SSubs)
    (l : List (Bool × Nat × SCmd)) (h : SSubs.collect subs idx vs = .ok l)
    (j : Nat) (cj : SCmd) (hj : (SSubs.toList subs).get? j = some cj) :
    ∃ s i c', cj.smatch idx vs = .ok (s, i, c') ∧ l.get? j = some (s, i, c') :=
  collect_independent_bounded idx vs subs.slen subs (Nat.le_refl _) l h j cj hj

end Smpl

namespace Smpl

/-- Unfolding equation for `SCmd.smatch` on a constructor. -/
theorem smatch_unfold (key name : String) (args : List Tok) (subs : SSubs)
    (ind : Option (Nat × Nat)) (idx : Nat) (values : List String) :
    SCmd.smatch (.mk key name args subs ind) idx values =
      (match values.get? idx with
       | none => .ok (false, idx, .mk key name args subs ind)
       | some a =>
         if a = name then
           match argsLoop args (idx + 1) values with
           | (false, _, args') => .ok (false, idx, .mk key name args' subs (some (idx, idx + 1)))
           | (true, idx', args') =>
             match subs with
             | .nil => .ok (true, idx', .mk key name args' .nil (some (idx, idx + 1)))
             | s =>
               (s.collect idx' values).bind fun results =>
                 if 1 < (successesOf results).length then .ambiguous
                 else
                   match successesOf results with
                   | [] => .ok (false, idx, .mk key name args' (ssubsOfResults results) (some (idx, idx + 1)))
                   | w :: _ => .ok (true, idx' + w.2.1, .mk key name args' (.cons w.2.2 .nil) (some (idx, idx + 1)))
         else .ok (false, idx, .mk key name args subs ind)) := by
  rw [SCmd.smatch]

/-- A failed required token inside a smplcli subcommand aborts only this
node's attempt: `Subcommand.match` reports no-match at the entry cursor
(`return False, start_idx`), the signal its parent uses to try the next
sibling; no exception is raised and no payload is carried. -/
theorem smatch_args_fail_rewinds (key name : String) (sargs : List Tok)
    (subs : SSubs) (ind : Option (Nat × Nat)) (idx : Nat) (vs : List String)
    (i : Nat) (sargs' : List Tok)
    (hname : vs.get? idx = some name)
    (hfail : argsLoop sargs (idx + 1) vs = (false, i, sargs')) :
    SCmd.smatch (.mk key name sargs subs ind) idx vs =
      .ok (false, idx, .mk key name sargs' subs (some (idx, idx + 1))) := by
  rw [smatch_unfold, hname]
  simp only [if_pos rfl, hfail, if_true]

end Smpl

/-- C1 counterexample: with variants `a` (whose own subcommand group
fails) and `b`, on input `["a", "b"]` the clipstick matcher commits
variant `b` at cursor 2, although variant `b` attempted from the
post-scan cursor 0 does not match: the committed variant's attempt
started from the cursor returned by its failed sibling, so a variant's
entry cursor does depend on a sibling's outcome. -/
theorem c1_counterexample :
    Clip.Command.runMatch
        (.mk [] (.cons "a" (.mk [] (.cons "c" (.mk [] .nil) .nil))
          (.cons "b" (.mk [] .nil) .nil))) 0 ["a", "b"]
      = .ok (true, 2, .mk [] (.cons "b" (.mk [] .nil) .nil)) ∧
    Clip.subMatchAt "b" (.mk [] .nil) 0 ["a", "b"] = .ok (false, 0, .mk [] .nil) :=
  ⟨rfl, rfl⟩

/-- C1 (amended): sibling variants hold disjoint token state, and in the
clipstick matcher a variant failing its surface-name test hands the next
sibling the unchanged cursor — but the cursor threads through sibling
attempts, so an attempt that consumed input shifts the next sibling's
entry cursor; only the smplcli matcher attempts every variant
independently from the same post-scan cursor, each result a function of
that variant and the shared cursor alone. -/
theorem c1_amended (name : String) (c : Clip.Command) (idx : Nat)
    (args : List String) (a : String)
    (subs : Smpl.SSubs) (vs : List String) (sidx : Nat)
    (l : List (Bool × Nat × Smpl.SCmd)) (j : Nat) (cj : Smpl.SCmd)
    (hg : args.get? idx = some a) (hne : a ≠ name)
    (hc : Smpl.SSubs.collect subs sidx vs = .ok l)
    (hj : (Smpl.SSubs.toList subs).get? j = some cj) :
    Clip.subMatchAt name c idx args = .ok (false, idx, c) ∧
    ∃ s i c', cj.smatch sidx vs = .ok (s, i, c') ∧ l.get? j = some (s, i, c') :=
  ⟨Clip.subMatchAt_name_mismatch name c idx args a hg hne,
   Smpl.collect_independent sidx vs subs l hc j cj hj⟩

/-- C1 witness: the amended statement at concrete inputs. -/
theorem c1_witness :
    Clip.subMatchAt "y" (.mk [] .nil) 0 ["x"] = .ok (false, 0, .mk [] .nil) ∧
    ∃ s i c', (Smpl.SCmd.mk "k" "z" [] .nil none).smatch 0 ["w"] = .ok (s, i, c') ∧
      [((false : Bool), (0 : Nat), Smpl.SCmd.mk "k" "z" [] .nil none)].get? 0
        = some (s, i, c') :=
  c1_amended "y" (.mk [] .nil) 0 ["x"] "x"
    (.cons (.mk "k" "z" [] .nil none) .nil) ["w"] 0
    [(false, 0, .mk "k" "z" [] .nil none)] 0 (.mk "k" "z" [] .nil none)
    rfl (by decide) rfl rfl

/-- C2 counterexample: with two variants that both succeed from the
post-scan cursor 0 on input `["x"]` (both match attempts from cursor 0
return success), the clipstick matcher commits the first variant instead
of raising the ambiguous-grammar fault: the defensive check compares
against the cursor threaded past the first success, not the post-scan
cursor. -/
theorem c2_counterexample :
    Clip.Command.runMatch
        (.mk [] (.cons "x" (.mk [] .nil) (.cons "x" (.mk [] .nil) .nil))) 0 ["x"]
      = .ok (true, 1, .mk [] (.cons "x" (.mk [] .nil) .nil)) ∧
    Clip.subMatchAt "x" (.mk [] .nil) 0 ["x"] = .ok (true, 1, .mk [] .nil) :=
  ⟨rfl, rfl⟩

/-- C2 (amended): at most one subcommand variant is ever committed per
successful match — on success the node's `sub_commands` list holds at
most one entry — but two variants succeeding from the post-scan cursor
need not trigger the ambiguous-grammar fault, which the clipstick
matcher raises only when a later variant also succeeds from the cursor
threaded past the earlier success. -/
theorem c2_amended (toks : List Clip.Token) (subs : Clip.Subs) (idx i : Nat)
    (args : List String) (c' : Clip.Command)
    (h : Clip.Command.runMatch (.mk toks subs) idx args = .ok (true, i, c')) :
    c'.subsOf.len ≤ 1 :=
  Clip.runMatch_commits_at_most_one toks subs idx i args c' h

/-- C2 witness: the amended statement at a concrete input. -/
theorem c2_witness :
    (Clip.Command.mk [] (.cons "x" (.mk [] .nil) .nil)).subsOf.len ≤ 1 :=
  c2_amended [] (.cons "x" (.mk [] .nil) (.cons "x" (.mk [] .nil) .nil)) 0 1 ["x"]
    (.mk [] (.cons "x" (.mk [] .nil) .nil)) rfl

/-- C3 counterexample: a missing required token inside variant `a` does
not merely abort that variant's attempt: the raise propagates out of the
whole match, so the sibling variant (which matches from the same cursor)
is never committed and the parent never sees a rewind signal. -/
theorem c3_counterexample :
    Clip.Command.runMatch
        (.mk [] (.cons "a" (.mk [Clip.Token.positionalArg "v" none] .nil)
          (.cons "a" (.mk [] .nil) .nil))) 0 ["a"]
      = .missingPositional "v" 1 ["a"] ∧
    Clip.subMatchAt "a" (.mk [] .nil) 0 ["a"] = .ok (true, 1, .mk [] .nil) :=
  ⟨rfl, rfl⟩

/-- C3 (amended): after the exhaustive scan, the clipstick matcher fails
with `MissingPositional` naming the first unmatched required token in
declaration order and carrying the post-scan cursor and the full input —
but the failure is an exception that propagates out of the entire match
regardless of the node's siblings; only the smplcli matcher rewinds a
required-token failure to the node's entry cursor and returns the
no-match signal its parent uses to try the next sibling (carrying no
payload). -/
theorem c3_amended (toks : List Clip.Token) (subs : Clip.Subs)
    (idx idx' : Nat) (args : List String) (toks' : List Clip.Token)
    (t : Clip.Token)
    (key name : String) (sargs : List Smpl.Tok) (ssubs : Smpl.SSubs)
    (ind : Option (Nat × Nat)) (sidx : Nat) (vs : List String) (si : Nat)
    (sargs' : List Smpl.Tok)
    (h1 : Clip.isHelpKey idx args = false)
    (h2 : Clip.scanLoop (args.length + 1) toks idx args = .ok (idx', toks'))
    (h3 : Clip.firstMissingRequired toks' = some t)
    (h4 : vs.get? sidx = some name)
    (h5 : Smpl.argsLoop sargs (sidx + 1) vs = (false, si, sargs')) :
    Clip.Command.runMatch (.mk toks subs) idx args =
      .missingPositional (joinKeys t.userKeys) idx' args ∧
    Smpl.SCmd.smatch (.mk key name sargs ssubs ind) sidx vs =
      .ok (false, sidx, .mk key name sargs' ssubs (some (sidx, sidx + 1))) :=
  ⟨Clip.missing_required_raises toks subs idx idx' args toks' t h1 h2 h3,
   Smpl.smatch_args_fail_rewinds key name sargs ssubs ind sidx vs si sargs' h4 h5⟩

/-- C3 witness: the amended statement at concrete inputs. -/
theorem c3_witness :
    Clip.Command.runMatch (.mk [Clip.Token.positionalArg "v" none] .nil) 0 ["-z"] =
      .missingPositional (joinKeys (Clip.Token.positionalArg "v" none).userKeys) 0 ["-z"] ∧
    Smpl.SCmd.smatch (.mk "k" "sub" [Smpl.Tok.positionalArg "p" none] .nil none) 0 ["sub", "--x"] =
      .ok (false, 0, .mk "k" "sub" [Smpl.Tok.positionalArg "p" none] .nil (some (0, 1))) :=
  c3_amended [Clip.Token.positionalArg "v" none] .nil 0 0 ["-z"]
    [Clip.Token.positionalArg "v" none] (Clip.Token.positionalArg "v" none)
    "k" "sub" [Smpl.Tok.positionalArg "p" none] .nil none 0 ["sub", "--x"] 1
    [Smpl.Tok.positionalArg "p" none]
    rfl rfl rfl rfl rfl

/-- C5 counterexample: a model with a duplicate short alias (two fields
both declaring short `"v"`) fails the pre-input schema check, and the
parse terminates with exit code 1 — the very code the claim reserves for
user input errors, not a distinct one. -/
theorem c5_counterexample :
    Clip.parsePrelude (.mk [["v"], ["v"]] true false .nil) ["anything"]
      = .exitWith 1 := rfl

/-- C5 (amended): a duplicate-short schema definition error is detected
by the full schema check before any input token is read — the outcome of
the parse prelude is the same for every argument list — and terminates
the parse with exit code 1, the same code the specification assigns to
user input errors, not a distinct one. -/
theorem c5_amended (m : Clip.SModel) (args args2 : List String)
    (h : m.validateShorts = false) :
    Clip.parsePrelude m args = .exitWith 1 ∧
    Clip.parsePrelude m args = Clip.parsePrelude m args2 := by
  constructor
  · simp [Clip.parsePrelude, h]
  · rfl

/-- C5 witness: the amended statement at a concrete input. -/
theorem c5_witness :
    Clip.parsePrelude (.mk [["v"], ["v"]] true false .nil) ["a"] = .exitWith 1 ∧
    Clip.parsePrelude (.mk [["v"], ["v"]] true false .nil) ["a"]
      = Clip.parsePrelude (.mk [["v"], ["v"]] true false .nil) ["b", "c"] :=
  c5_amended (.mk [["v"], ["v"]] true false .nil) ["a"] ["b", "c"] rfl

/-- C6: an optional boolean flag recognizes exactly the spelling set
contradicting its default — with default `False` only the affirmative
keys and shorts, with default `True` only the negated ones — and for the
schema `FlagDefaultFalse{proceed: optional bool default false}`, input
`["--proceed"]` captures `proceed := true` (so `parse` yields the pair
`proceed ↦ true`), while input `[]` matches with no capture so the
token's `parse` contributes nothing and the declared default `false`
applies. -/
theorem c6_flag_contradicts_default (f : String) (shorts : List String)
    (m : Option Bool) :
    (Clip.Token.optionalBooleanFlag true f shorts m).userKeys
      = [toKey f] ++ shorts.map toShort ∧
    (Clip.Token.optionalBooleanFlag false f shorts m).userKeys
      = [toFalseKey f] ++ shorts.map toFalseShort ∧
    Clip.Command.runMatch
        (.mk [.optionalBooleanFlag true "proceed" [] none] .nil) 0 ["--proceed"]
      = .ok (true, 1, .mk [.optionalBooleanFlag true "proceed" [] (some true)] .nil) ∧
    (Clip.Token.optionalBooleanFlag true "proceed" [] (some true)).parseTok
      = [("proceed", .bool true)] ∧
    Clip.Command.runMatch
        (.mk [.optionalBooleanFlag true "proceed" [] none] .nil) 0 []
      = .ok (true, 0, .mk [.optionalBooleanFlag true "proceed" [] none] .nil) ∧
    (Clip.Token.optionalBooleanFlag true "proceed" [] (none : Option Bool)).parseTok
      = [] :=
  ⟨rfl, rfl, rfl, rfl, rfl, rfl⟩

/-- C7: evaluated at the failing input, the token engine fully matches
the one-positional schema of `SimpleModel` on `["Adam", "Ondra"]` at
cursor 1, leaving the token `"Ondra"` unconsumed; no code path in the
sources raises an `UnrecognizedInput` error for the leftover — the entry
point delegates the error to the external argument parser. -/
theorem c7_leftover_token_engine :
    Clip.Command.runMatch
        (.mk [Clip.Token.positionalArg "my_value" none] .nil) 0 ["Adam", "Ondra"]
      = .ok (true, 1, .mk [Clip.Token.positionalArg "my_value" (some "Adam")] .nil) :=
  rfl

/-- C8: whenever the token at the entry cursor is the help marker
`"-h"`, `Command.match` short-circuits with the render-help signal for
every node, bypassing the scan, the completeness check and the
subcommand stage, and the signal carries process exit status 0. -/
theorem c8_help_short_circuit (c : Clip.Command) (idx : Nat)
    (args : List String) (h : Clip.isHelpKey idx args = true) :
    c.runMatch idx args = .helpExit ∧
    (c.runMatch idx args).exitStatus = some 0 := by
  cases c with
  | mk toks subs =>
    have h1 : Clip.Command.runMatch (.mk toks subs) idx args = .helpExit := by
      rw [Clip.runMatch_unfold, if_pos h]
    exact ⟨h1, by rw [h1]; rfl⟩

/-- C8 witness: the statement at a concrete input. -/
theorem c8_witness :
    Clip.Command.runMatch (.mk [] .nil) 0 ["-h"] = .helpExit ∧
    (Clip.Command.runMatch (.mk [] .nil) 0 ["-h"]).exitStatus = some 0 :=
  c8_help_short_circuit (.mk [] .nil) 0 ["-h"] rfl

/-- C9: matching terminates on every schema tree and every finite input:
the fuel-modelled `while` scan of `Command.match` never exhausts its
input-length fuel anywhere in the tree, because every successful token
match consumes at least one input slot, so each pass either strictly
advances the cursor or ends the scan. -/
theorem c9_matching_terminates (c : Clip.Command) (idx : Nat)
    (args : List String) :
    (c.runMatch idx args).isFuelOut = false :=
  Clip.runMatch_no_fuelOut c idx args

/-- C10: a recognized spelling of an optional keyed token or a
collection token as the final input element makes the token's match read
index cursor + 1 past the end of the input and raise an unhandled
out-of-bounds error — the `IndexError` guard covers only the spelling
lookup, not the read of the following value slot — and the error
escapes `Command.match` unhandled. -/
theorem c10_unguarded_value_read :
    Clip.Token.tmatch (.optionalKeyArgs "value" [] none) 0 ["--value"]
      = .indexError ∧
    Clip.Token.tmatch (.collection true "item" [] []) 0 ["--item"]
      = .indexError ∧
    Clip.Command.runMatch
        (.mk [Clip.Token.optionalKeyArgs "value" [] none] .nil) 0 ["--value"]
      = .indexError :=
  ⟨rfl, rfl, rfl⟩
